import Mathlib

/-!
Verification of the calculator engine of this repository.

The engine lives in the `useCalculator` hook (source file `src/unnamed/part_000`):
state fields `display`, `storedValue`, `operator`, `waitingForOperand`, `memory`,
`history`, and the commands `clearAll`, `clearDisplay`, `toggleSign`,
`inputPercent`, `inputDot`, `inputDigit`, `performOperation`,
`handleMemoryAdd`, `handleMemorySubtract`, `handleMemoryRecall`,
`handleMemoryClear`.  A reduced variant of the same engine (no memory, no
history, an explicit `handleEquals`) appears in `src/src/App.tsx`; it is
embedded separately as `AppState` / `appPerformOperation` / `handleEquals`.

Modelling of the JavaScript platform primitives the engine calls:

* JavaScript numbers are modelled by `JSNum`: an exact rational together with
  the IEEE-754 special values `Infinity`, `-Infinity` and `NaN`.  Arithmetic
  on finite values is exact rational arithmetic (binary64 rounding is not
  modelled; every concrete value exercised by the claims is exactly
  representable, so rounding never fires on them).  The special-value rules
  of IEEE-754 addition, subtraction, multiplication and division are modelled
  faithfully, except that the signed zero `-0` is identified with `0` (the
  engine renders both as `"0"`).
* `String(n)` is modelled by `jsStringOfNum`: `"NaN"`, `"Infinity"`,
  `"-Infinity"` for the special values, otherwise sign, decimal integer part
  and, when the value is not an integer, a `.` followed by the fractional
  digits.  The scientific notation JavaScript switches to for magnitudes
  outside `[1e-6, 1e21)` is not modelled (no claim exercises it); a
  non-terminating decimal is truncated to 20 fractional digits.
* `parseFloat(s)` is modelled by `parseFloat`: optional sign, `Infinity`,
  integer digits, optional `.` plus fraction digits, optional exponent part,
  ignoring any trailing garbage; `NaN` when no digits are found.  Leading
  whitespace skipping is omitted (no display string starts with whitespace).

Rationals are always constructed through `Rat.divInt` so that every concrete
engine run reduces inside the kernel and closed claims are settled by
`decide`.
-/

/-- A JavaScript number: an exact rational or one of the IEEE-754
special values. -/
inductive JSNum where
  | finite (q : ℚ)
  | posInf
  | negInf
  | nan
deriving DecidableEq

/-- Exact rational addition, written through `Rat.divInt` so that it
kernel-reduces on concrete values. -/
def qAdd (a b : ℚ) : ℚ := Rat.divInt (a.num * b.den + b.num * a.den) (a.den * b.den)

/-- Exact rational multiplication through `Rat.divInt`. -/
def qMul (a b : ℚ) : ℚ := Rat.divInt (a.num * b.num) (a.den * b.den)

/-- Exact rational division through `Rat.divInt` (the zero-divisor case is
handled by `jsDiv` before this is reached). -/
def qDiv (a b : ℚ) : ℚ := Rat.divInt (a.num * b.den) (a.den * b.num)

/-- JavaScript unary minus. -/
def jsNeg : JSNum → JSNum
  | .finite q => .finite (-q)
  | .posInf => .negInf
  | .negInf => .posInf
  | .nan => .nan

/-- JavaScript `+` on numbers (IEEE-754 special-value rules, exact on
finite values). -/
def jsAdd : JSNum → JSNum → JSNum
  | .nan, _ => .nan
  | _, .nan => .nan
  | .posInf, .negInf => .nan
  | .negInf, .posInf => .nan
  | .posInf, _ => .posInf
  | _, .posInf => .posInf
  | .negInf, _ => .negInf
  | _, .negInf => .negInf
  | .finite a, .finite b => .finite (qAdd a b)

/-- JavaScript `-` on numbers; in IEEE-754 `x - y` is exactly `x + (-y)`. -/
def jsSub (a b : JSNum) : JSNum := jsAdd a (jsNeg b)

/-- JavaScript `*` on numbers. -/
def jsMul : JSNum → JSNum → JSNum
  | .nan, _ => .nan
  | _, .nan => .nan
  | .finite a, .finite b => .finite (qMul a b)
  | .posInf, .posInf => .posInf
  | .posInf, .negInf => .negInf
  | .negInf, .posInf => .negInf
  | .negInf, .negInf => .posInf
  | .posInf, .finite b => if b = 0 then .nan else if b < 0 then .negInf else .posInf
  | .finite a, .posInf => if a = 0 then .nan else if a < 0 then .negInf else .posInf
  | .negInf, .finite b => if b = 0 then .nan else if b < 0 then .posInf else .negInf
  | .finite a, .negInf => if a = 0 then .nan else if a < 0 then .posInf else .negInf

/-- JavaScript `/` on numbers: division by zero yields a signed infinity
(`0/0` yields `NaN`), never an error. -/
def jsDiv : JSNum → JSNum → JSNum
  | .nan, _ => .nan
  | _, .nan => .nan
  | .posInf, .posInf => .nan
  | .posInf, .negInf => .nan
  | .negInf, .posInf => .nan
  | .negInf, .negInf => .nan
  | .posInf, .finite b => if b < 0 then .negInf else .posInf
  | .negInf, .finite b => if b < 0 then .posInf else .negInf
  | .finite _, .posInf => .finite 0
  | .finite _, .negInf => .finite 0
  | .finite a, .finite b =>
    if b = 0 then
      if a = 0 then .nan else if a < 0 then .negInf else .posInf
    else .finite (qDiv a b)

/-- JavaScript truthiness of a number: `0` and `NaN` are falsy. -/
def jsTruthy : JSNum → Bool
  | .finite q => if q = 0 then false else true
  | .nan => false
  | _ => true

/-- The character of a decimal digit (`0 ↦ '0'`, …, `9 ↦ '9'`). -/
def digitChar (n : Nat) : Char := Char.ofNat (48 + n)

/-- Decimal digit characters of a natural number, most significant first,
with explicit fuel (any fuel above the number itself is enough). -/
def natToDigits : Nat → Nat → List Char
  | 0, _ => []
  | fuel + 1, n => if n < 10 then [digitChar n] else natToDigits fuel (n / 10) ++ [digitChar (n % 10)]

/-- The least `k ≤ d` with `d ∣ 10 ^ k`, if any: the number of decimal
fraction digits needed for denominator `d`. -/
def decExp (d : Nat) : Option Nat := (List.range (d + 1)).find? (fun k => 10 ^ k % d == 0)

/-- Render `m` as exactly `k` decimal digits (left-padded with zeros);
the fraction part of a decimal expansion. -/
def fracChars (k m : Nat) : List Char :=
  List.replicate (k - (natToDigits (m + 1) m).length) '0' ++ natToDigits (m + 1) m

/-- Decimal notation of a nonnegative rational: integer digits, and when the
value is not an integer a `.` followed by the fraction digits.  A denominator
with no finite decimal expansion is truncated to 20 fraction digits. -/
def ratPosToChars (q : ℚ) : List Char :=
  let k := (decExp q.den).getD 20
  let m := q.num.toNat * 10 ^ k / q.den
  if k = 0 then natToDigits (m + 1) m
  else natToDigits (m / 10 ^ k + 1) (m / 10 ^ k) ++ '.' :: fracChars k (m % 10 ^ k)

/-- JavaScript `String(n)` for a number `n`. -/
def jsStringOfNum : JSNum → String
  | .nan => "NaN"
  | .posInf => "Infinity"
  | .negInf => "-Infinity"
  | .finite q => if q < 0 then ⟨'-' :: ratPosToChars (-q)⟩ else ⟨ratPosToChars q⟩

/-- Decimal digit test on characters. -/
def isDigitChar (c : Char) : Bool := 48 ≤ c.toNat && c.toNat ≤ 57

/-- Value of a list of decimal digit characters. -/
def digitsVal (ds : List Char) : Nat := ds.foldl (fun a c => 10 * a + (c.toNat - 48)) 0

/-- Split a character list into its longest digit-only front and the rest. -/
def spanDigits : List Char → List Char × List Char
  | [] => ([], [])
  | c :: rest =>
    if isDigitChar c then
      let p := spanDigits rest
      (c :: p.1, p.2)
    else ([], c :: rest)

/-- The exponent denoted by an optional trailing `e`/`E` part, `0` when the
part is absent or malformed (as `parseFloat` ignores a malformed tail). -/
def parseExponent : List Char → Int
  | [] => 0
  | c :: rest =>
    if c == 'e' || c == 'E' then
      match rest with
      | [] => 0
      | d :: rest2 =>
        if d == '+' then
          (if (spanDigits rest2).1.isEmpty then 0 else ((digitsVal (spanDigits rest2).1 : Nat) : Int))
        else if d == '-' then
          (if (spanDigits rest2).1.isEmpty then 0 else -((digitsVal (spanDigits rest2).1 : Nat) : Int))
        else
          (if (spanDigits (d :: rest2)).1.isEmpty then 0
           else ((digitsVal (spanDigits (d :: rest2)).1 : Nat) : Int))
    else 0

/-- The rational denoted by integer digits of value `a`, fraction digits of
value `b` and length `l`, and exponent `e`:  `(a + b / 10 ^ l) * 10 ^ e`. -/
def parseVal (a b l : Nat) (e : Int) : ℚ :=
  if e < 0 then Rat.divInt ((a * 10 ^ l + b : Nat) : Int) ((10 ^ l * 10 ^ (-e).toNat : Nat) : Int)
  else Rat.divInt (((a * 10 ^ l + b : Nat) : Int) * 10 ^ e.toNat) ((10 ^ l : Nat) : Int)

/-- The characters of the literal `Infinity`. -/
def infChars : List Char := ['I', 'n', 'f', 'i', 'n', 'i', 't', 'y']

/-- Combine the integer-digit span `p1` and the fraction-digit span `p2` of
a `parseFloat` run into its result: `none` when no digits were found at all,
otherwise the value of the digits with the optional exponent that follows. -/
def parseTail (p1 p2 : List Char × List Char) : Option JSNum :=
  if p1.1.isEmpty && p2.1.isEmpty then none
  else some (JSNum.finite (parseVal (digitsVal p1.1) (digitsVal p2.1) p2.1.length
    (parseExponent p2.2)))

/-- Span the fraction digits after the integer part: consume a `.` and the
digits following it, when present. -/
def parseFrac : List Char → List Char × List Char
  | '.' :: rest => spanDigits rest
  | r => ([], r)

/-- Behaviour of `parseFloat` after an optional sign has been consumed: `Infinity`, or
digits with optional fraction and exponent; `none` when no digits occur. -/
def parseAfterSign (cs : List Char) : Option JSNum :=
  if cs.take 8 = infChars then some JSNum.posInf
  else parseTail (spanDigits cs) (parseFrac (spanDigits cs).2)

/-- JavaScript `parseFloat` on a string. -/
def parseFloat (s : String) : JSNum :=
  match s.data with
  | '-' :: rest =>
    match parseAfterSign rest with
    | some v => jsNeg v
    | none => JSNum.nan
  | '+' :: rest =>
    match parseAfterSign rest with
    | some v => v
    | none => JSNum.nan
  | cs =>
    match parseAfterSign cs with
    | some v => v
    | none => JSNum.nan

/-- JavaScript `s.includes(c)` for a single character. -/
def jsIncludes (s : String) (c : Char) : Bool := s.data.contains c

/-- The number of `'.'` characters in a string. -/
def dotCount (s : String) : Nat := s.data.count '.'

/-- The state held by the `useCalculator` hook of `src/unnamed/part_000`:
`display`, `storedValue`, `operator`, `waitingForOperand`, `memory`,
`history`, with their initial values in `initialState`. -/
structure CalcState where
  display : String
  storedValue : Option JSNum
  operator : Option String
  waitingForOperand : Bool
  memory : JSNum
  history : List String
deriving DecidableEq

/-- The initial hook state: `'0'`, `null`, `null`, `false`, `0`, `[]`. -/
def initialState : CalcState :=
  { display := "0", storedValue := none, operator := none,
    waitingForOperand := false, memory := JSNum.finite 0, history := [] }

/-- The `clearAll` command of `part_000`. -/
def clearAll (s : CalcState) : CalcState :=
  { s with display := "0", storedValue := none, operator := none, waitingForOperand := false }

/-- The `clearDisplay` command of `part_000`. -/
def clearDisplay (s : CalcState) : CalcState :=
  { s with display := "0", waitingForOperand := false }

/-- The `toggleSign` command of `part_000`: `setDisplay(String(-parseFloat(display)))`. -/
def toggleSign (s : CalcState) : CalcState :=
  { s with display := jsStringOfNum (jsNeg (parseFloat s.display)) }

/-- The `inputPercent` command of `part_000`: `setDisplay(String(parseFloat(display) / 100))`. -/
def inputPercent (s : CalcState) : CalcState :=
  { s with display := jsStringOfNum (jsDiv (parseFloat s.display) (JSNum.finite 100)) }

/-- The `inputDot` command of `part_000`. -/
def inputDot (s : CalcState) : CalcState :=
  if s.waitingForOperand then { s with display := "0.", waitingForOperand := false }
  else if !(jsIncludes s.display '.') then { s with display := s.display ++ "." }
  else s

/-- The `inputDigit` command of `part_000` (the digit arrives as a one-character string). -/
def inputDigit (digit : String) (s : CalcState) : CalcState :=
  if s.waitingForOperand then { s with display := digit, waitingForOperand := false }
  else { s with display := if s.display == "0" then digit else s.display ++ digit }

/-- JavaScript truthiness of the `operator` field (`null` and the empty
string are falsy). -/
def opTruthy : Option String → Bool
  | none => false
  | some t => !(t == "")

/-- The `switch (operator)` of `performOperation` in `part_000`; the
`default` arm sets `newValue = inputValue`. -/
def applyOp (op : String) (l r : JSNum) : JSNum :=
  if op = "+" then jsAdd l r
  else if op = "-" then jsSub l r
  else if op = "×" then jsMul l r
  else if op = "÷" then jsDiv l r
  else r

/-- The history line template of `part_000`: current value, operator, input
value and result separated by spaces and an equals sign. -/
def historyLine (l : JSNum) (op : String) (r res : JSNum) : String :=
  jsStringOfNum l ++ " " ++ op ++ " " ++ jsStringOfNum r ++ " = " ++ jsStringOfNum res

/-- The `performOperation` command of `part_000`.  All React state setters read the
pre-call state, so the call is a pure function of the previous state. -/
def performOperation (nextOperator : String) (s : CalcState) : CalcState :=
  let inputValue := parseFloat s.display
  let s1 :=
    match s.storedValue with
    | none => { s with storedValue := some inputValue }
    | some sv =>
      match s.operator with
      | some op =>
        if op = "" then s
        else
          let currentValue := if jsTruthy sv then sv else JSNum.finite 0
          let newValue := applyOp op currentValue inputValue
          { s with storedValue := some newValue,
                   display := jsStringOfNum newValue,
                   history := s.history ++ [historyLine currentValue op inputValue newValue] }
      | none => s
  { s1 with waitingForOperand := true, operator := some nextOperator }

/-- The `handleMemoryAdd` command of `part_000`: `setMemory(memory + parseFloat(display))`. -/
def handleMemoryAdd (s : CalcState) : CalcState :=
  { s with memory := jsAdd s.memory (parseFloat s.display) }

/-- The `handleMemorySubtract` command of `part_000`. -/
def handleMemorySubtract (s : CalcState) : CalcState :=
  { s with memory := jsSub s.memory (parseFloat s.display) }

/-- The `handleMemoryRecall` command of `part_000`: show the memory and mark the next
digit as starting a fresh operand. -/
def handleMemoryRecall (s : CalcState) : CalcState :=
  { s with display := jsStringOfNum s.memory, waitingForOperand := true }

/-- The `handleMemoryClear` command of `part_000`. -/
def handleMemoryClear (s : CalcState) : CalcState :=
  { s with memory := JSNum.finite 0 }

/-- One button press of the `part_000` UI, each wired to exactly one engine
command (`performOperation` receives the operator string of the key,
including `"="`). -/
inductive Cmd where
  | digit (d : Fin 10)
  | dot
  | op (o : String)
  | clearA
  | clearD
  | sign
  | percent
  | mAdd
  | mSub
  | mRecall
  | mClear
deriving DecidableEq

/-- The one-character string a digit key passes to `inputDigit`. -/
def digitStr (d : Fin 10) : String := ⟨[digitChar d.val]⟩

/-- Dispatch one command to its engine function. -/
def runCmd (s : CalcState) : Cmd → CalcState
  | .digit d => inputDigit (digitStr d) s
  | .dot => inputDot s
  | .op o => performOperation o s
  | .clearA => clearAll s
  | .clearD => clearDisplay s
  | .sign => toggleSign s
  | .percent => inputPercent s
  | .mAdd => handleMemoryAdd s
  | .mSub => handleMemorySubtract s
  | .mRecall => handleMemoryRecall s
  | .mClear => handleMemoryClear s

/-- Run a sequence of commands from a state. -/
def runCmds (cs : List Cmd) (s : CalcState) : CalcState := cs.foldl runCmd s

/-- The state of the reduced calculator in `src/src/App.tsx` (no memory, no
history). -/
structure AppState where
  displayValue : String
  storedValue : Option JSNum
  operator : Option String
  waitingForOperand : Bool
deriving DecidableEq

/-- The `switch (operator)` of `performOperation` in `App.tsx`; its
`default` arm leaves the initialiser `newValue = 0` in place. -/
def appApplyOp (op : String) (l r : JSNum) : JSNum :=
  if op = "+" then jsAdd l r
  else if op = "-" then jsSub l r
  else if op = "×" then jsMul l r
  else if op = "÷" then jsDiv l r
  else JSNum.finite 0

/-- The `performOperation` command of `App.tsx`. -/
def appPerformOperation (nextOperator : String) (s : AppState) : AppState :=
  let inputValue := parseFloat s.displayValue
  let s1 :=
    match s.storedValue with
    | none => { s with storedValue := some inputValue }
    | some sv =>
      match s.operator with
      | some op =>
        if op = "" then s
        else
          let currentValue := if jsTruthy sv then sv else JSNum.finite 0
          let newValue := appApplyOp op currentValue inputValue
          { s with storedValue := some newValue, displayValue := jsStringOfNum newValue }
      | none => s
  { s1 with waitingForOperand := true, operator := some nextOperator }

/-- The `handleEquals` command of `App.tsx`: when an operator is pending and an operand
has been entered, perform the operation and then null the operator (the
final `setOperator(null)` wins over the `setOperator('=')` queued inside
`performOperation`). -/
def handleEquals (s : AppState) : AppState :=
  if opTruthy s.operator && !s.waitingForOperand then
    { appPerformOperation "=" s with operator := none }
  else s

/-- A sample `App.tsx` state: operand `7` entered after a pending `+` on a
stored `3` (used to exercise `handleEquals`). -/
def appStateSample : AppState :=
  { displayValue := "7", storedValue := some (JSNum.finite 3),
    operator := some "+", waitingForOperand := false }

/-- Whether a `JSNum` is exactly representable by a finite decimal string
(always true for the special values); every value `parseFloat` can return
satisfies this. -/
def Terminates : JSNum → Prop
  | .finite q => ∃ n, q.den ∣ 10 ^ n
  | _ => True

theorem jsAdd_nan_right (v : JSNum) : jsAdd v JSNum.nan = JSNum.nan := by
  cases v <;> rfl

theorem jsSub_nan_right (v : JSNum) : jsSub v JSNum.nan = JSNum.nan := by
  cases v <;> rfl

theorem jsMul_nan_right (v : JSNum) : jsMul v JSNum.nan = JSNum.nan := by
  cases v <;> rfl

theorem jsDiv_nan_right (v : JSNum) : jsDiv v JSNum.nan = JSNum.nan := by
  cases v <;> rfl

theorem applyOp_nan_right (op : String) (l : JSNum) : applyOp op l JSNum.nan = JSNum.nan := by
  unfold applyOp
  split
  · exact jsAdd_nan_right l
  · split
    · exact jsSub_nan_right l
    · split
      · exact jsMul_nan_right l
      · split
        · exact jsDiv_nan_right l
        · rfl

/-- C1: chained operations evaluate strictly left to right with no operator
precedence: from the initial state, the presses `3`, `+`, `4`, `×`, `2`, `=`
leave the display `"14"`, i.e. `3 + 4 × 2` is computed as `(3 + 4) × 2`. -/
theorem chained_ops_left_to_right :
    (runCmds [Cmd.digit 3, Cmd.op "+", Cmd.digit 4, Cmd.op "×", Cmd.digit 2, Cmd.op "="]
      initialState).display = "14" := by decide

/-- C4: division by zero never throws and degrades to the IEEE-754
infinity/NaN sentinel: from the initial state, `5`, `÷`, `0`, `=` leaves the
display `"Infinity"`; on the value level `5 / 0` is positive infinity,
`(-5) / 0` negative infinity and `0 / 0` is `NaN`, per the sign rules. -/
theorem divide_by_zero_shows_infinity :
    (runCmds [Cmd.digit 5, Cmd.op "÷", Cmd.digit 0, Cmd.op "="] initialState).display
        = "Infinity"
      ∧ jsDiv (JSNum.finite 5) (JSNum.finite 0) = JSNum.posInf
      ∧ jsDiv (JSNum.finite (-5)) (JSNum.finite 0) = JSNum.negInf
      ∧ jsDiv (JSNum.finite 0) (JSNum.finite 0) = JSNum.nan := by decide

/-- C5: for every state, `clearAll` sets the display to `"0"`, the
accumulator and the pending operator to `null` and the fresh-operand flag to
`false`, while leaving the memory and the history exactly unchanged. -/
theorem clearAll_resets_core_keeps_memory_history (s : CalcState) :
    (clearAll s).display = "0"
      ∧ (clearAll s).storedValue = none
      ∧ (clearAll s).operator = none
      ∧ (clearAll s).waitingForOperand = false
      ∧ (clearAll s).memory = s.memory
      ∧ (clearAll s).history = s.history :=
  ⟨rfl, rfl, rfl, rfl, rfl, rfl⟩

/-- C3 counterexample: the claimed sequence `MC`, `7`, `M+`, `3`, `M+`, `MR`
leaves the display `"80"`, not `"10"`: `memoryAdd` does not set the
fresh-operand flag, so the `3` appends to the displayed `7` giving `"73"`,
and the memory becomes `7 + 73 = 80`. -/
theorem memory_round_trip_counterexample :
    (runCmds [Cmd.mClear, Cmd.digit 7, Cmd.mAdd, Cmd.digit 3, Cmd.mAdd, Cmd.mRecall]
        initialState).display = "80"
      ∧ "80" ≠ "10" := by decide

/-- C3 (amended): with a `clearDisplay` inserted after the first `memoryAdd`,
so that the second digit starts a new operand, the memory round-trip holds:
`MC`, `7`, `M+`, `C`, `3`, `M+`, `MR` leaves the display `"10"`. -/
theorem memory_round_trip_amended :
    (runCmds [Cmd.mClear, Cmd.digit 7, Cmd.mAdd, Cmd.clearD, Cmd.digit 3, Cmd.mAdd, Cmd.mRecall]
      initialState).display = "10" := by decide

/-- C2 counterexample: after `3`, `=` from the initial state the pending
operator is `"="`, not `null` — `performOperation` of `part_000` sets
`operator` to its argument unconditionally, also for `"="`. -/
theorem equals_pending_operator_counterexample :
    (runCmds [Cmd.digit 3, Cmd.op "="] initialState).operator = some "="
      ∧ some "=" ≠ (none : Option String) := by decide

/-- C2 (amended): `performOperation(next)` always sets the pending operator
to `next`, including `next = "="`; only the `App.tsx` variant resets it to
`null`, through `handleEquals` (its equals key handler), when an operator is
pending and an operand has been entered.  In `part_000` a later operator
press after `"="` resolves the stale `"="` through the switch default, whose
result is the current operand — numerically the just-shown result — while
appending a spurious history line, as the run `3`, `=`, `+` shows. -/
theorem performOperation_sets_operator (s : CalcState) (op : String) (sa : AppState)
    (h1 : opTruthy sa.operator = true) (h2 : sa.waitingForOperand = false) :
    (performOperation op s).operator = some op
      ∧ (handleEquals sa).operator = none
      ∧ (performOperation "+" (runCmds [Cmd.digit 3, Cmd.op "="] initialState)).history
          = ["3 = 3 = 3"]
      ∧ (performOperation "+" (runCmds [Cmd.digit 3, Cmd.op "="] initialState)).storedValue
          = some (JSNum.finite 3) := by
  refine ⟨rfl, ?_, by decide, by decide⟩
  simp [handleEquals, h1, h2]

theorem performOperation_sets_operator_witness :
    (performOperation "+" initialState).operator = some "+"
      ∧ (handleEquals appStateSample).operator = none :=
  ⟨(performOperation_sets_operator initialState "+" appStateSample rfl rfl).1,
   (performOperation_sets_operator initialState "+" appStateSample rfl rfl).2.1⟩

/-- C6 counterexample: a `performOperation` call can append a history entry
without resolving a pending operator from `{+, -, ×, ÷}`: after `3`, `=` the
pending operator is `"="`, the history is empty, and the next `+` press
appends the line `"3 = 3 = 3"` through the switch default. -/
theorem history_append_counterexample :
    (runCmds [Cmd.digit 3, Cmd.op "="] initialState).operator = some "="
      ∧ ¬ ("=" ∈ ["+", "-", "×", "÷"])
      ∧ (runCmds [Cmd.digit 3, Cmd.op "="] initialState).history = []
      ∧ (performOperation "+" (runCmds [Cmd.digit 3, Cmd.op "="] initialState)).history
          = ["3 = 3 = 3"] := by decide

/-- Characterisation of the history after one `performOperation` call: the
old history with exactly one line appended when an accumulator and a truthy
pending operator are present, the old history unchanged otherwise. -/
theorem performOperation_history_eq (s : CalcState) (op : String) :
    (performOperation op s).history =
      s.history ++
        (match s.storedValue, s.operator with
          | some sv, some o =>
            if o = "" then []
            else [historyLine (if jsTruthy sv then sv else JSNum.finite 0) o
                (parseFloat s.display)
                (applyOp o (if jsTruthy sv then sv else JSNum.finite 0) (parseFloat s.display))]
          | _, _ => []) := by
  unfold performOperation
  cases hsv : s.storedValue with
  | none => simp
  | some sv =>
    cases hop : s.operator with
    | none => simp
    | some o =>
      by_cases ho : o = ""
      · simp [ho]
      · simp [ho]

/-- C6 (amended): history is append-only and ordered: `performOperation`
appends exactly one entry when an accumulator and a truthy pending operator
are present — including a stale `"="`, whose switch default records the
right operand as result — and appends nothing otherwise; existing entries
are never altered or reordered; no other command changes the history; and
after the two chained operations of `3 + 4 × 2 =` the history holds exactly
the two lines recording left operand, operator, right operand and result in
resolution order. -/
theorem history_append_only (s : CalcState) (op : String) (d : Fin 10) :
    (∃ t, (performOperation op s).history = s.history ++ t
        ∧ t.length ≤ 1
        ∧ (t = [] ↔ (s.storedValue = none ∨ opTruthy s.operator = false)))
      ∧ (inputDigit (digitStr d) s).history = s.history
      ∧ (inputDot s).history = s.history
      ∧ (clearAll s).history = s.history
      ∧ (clearDisplay s).history = s.history
      ∧ (toggleSign s).history = s.history
      ∧ (inputPercent s).history = s.history
      ∧ (handleMemoryAdd s).history = s.history
      ∧ (handleMemorySubtract s).history = s.history
      ∧ (handleMemoryRecall s).history = s.history
      ∧ (handleMemoryClear s).history = s.history
      ∧ (runCmds [Cmd.digit 3, Cmd.op "+", Cmd.digit 4, Cmd.op "×", Cmd.digit 2, Cmd.op "="]
          initialState).history = ["3 + 4 = 7", "7 × 2 = 14"] := by
  refine ⟨?_, ?_, ?_, rfl, rfl, rfl, rfl, rfl, rfl, rfl, rfl, by decide⟩
  · have hh := performOperation_history_eq s op
    cases hsv : s.storedValue with
    | none =>
      rw [hsv] at hh
      exact ⟨[], hh, by simp, by simp [hsv]⟩
    | some sv =>
      cases hop : s.operator with
      | none =>
        rw [hsv, hop] at hh
        exact ⟨[], hh, by simp, by simp [hsv, hop, opTruthy]⟩
      | some o =>
        by_cases ho : o = ""
        · rw [hsv, hop] at hh
          rw [show (match some sv, some o with
              | some sv, some o =>
                if o = "" then []
                else [historyLine (if jsTruthy sv then sv else JSNum.finite 0) o
                    (parseFloat s.display)
                    (applyOp o (if jsTruthy sv then sv else JSNum.finite 0)
                      (parseFloat s.display))]
              | _, _ => ([] : List String)) = [] from by simp [ho]] at hh
          exact ⟨[], hh, by simp, by simp [hsv, hop, opTruthy, ho]⟩
        · rw [hsv, hop] at hh
          rw [show (match some sv, some o with
              | some sv, some o =>
                if o = "" then []
                else [historyLine (if jsTruthy sv then sv else JSNum.finite 0) o
                    (parseFloat s.display)
                    (applyOp o (if jsTruthy sv then sv else JSNum.finite 0)
                      (parseFloat s.display))]
              | _, _ => ([] : List String))
            = [historyLine (if jsTruthy sv then sv else JSNum.finite 0) o
                (parseFloat s.display)
                (applyOp o (if jsTruthy sv then sv else JSNum.finite 0)
                  (parseFloat s.display))] from by simp [ho]] at hh
          exact ⟨_, hh, by simp, by simp [hsv, hop, opTruthy, ho]⟩
  · unfold inputDigit
    split
    · rfl
    · rfl
  · unfold inputDot
    split
    · rfl
    · split
      · rfl
      · rfl

/-- C9 counterexample: with an unparseable display the commands propagate
`NaN` instead of treating the value as `0`: the display `"NaN"` is reachable
(`0 ÷ 0 =`), `toggleSign` on it re-renders `"NaN"` where treating the value
as `0` would give `"0"`, and `memoryAdd` turns the memory into `NaN` instead
of leaving it `0`. -/
theorem unparseable_as_zero_counterexample :
    (runCmds [Cmd.digit 0, Cmd.op "÷", Cmd.digit 0, Cmd.op "="] initialState).display = "NaN"
      ∧ (toggleSign { initialState with display := "NaN" }).display = "NaN"
      ∧ "NaN" ≠ "0"
      ∧ (handleMemoryAdd { initialState with display := "NaN" }).memory = JSNum.nan
      ∧ JSNum.nan ≠ JSNum.finite 0 := by decide

/-- C9 (amended): an unparseable display parses to `NaN`, which the numeric
commands propagate rather than replace by `0`: `toggleSign` and
`inputPercent` re-render `"NaN"`, the memory add/subtract commands poison
the memory with `NaN`, and `performOperation` either stores `NaN` as the
accumulator or renders a `NaN` result (only a falsy *accumulator* is coerced
to `0`, by `storedValue || 0`, when resolving).  No command throws: every
command is a total function of the state, and abnormal values flow through
the IEEE-754 special values. -/
theorem unparseable_display_propagates_nan (s : CalcState) (op : String)
    (h : parseFloat s.display = JSNum.nan) :
    (toggleSign s).display = "NaN"
      ∧ (inputPercent s).display = "NaN"
      ∧ (handleMemoryAdd s).memory = JSNum.nan
      ∧ (handleMemorySubtract s).memory = JSNum.nan
      ∧ (s.storedValue = none → (performOperation op s).storedValue = some JSNum.nan)
      ∧ (∀ sv o, s.storedValue = some sv → s.operator = some o → o ≠ "" →
          (performOperation op s).display = "NaN") := by
  refine ⟨?_, ?_, ?_, ?_, ?_, ?_⟩
  · simp [toggleSign, h, jsNeg, jsStringOfNum]
  · simp [inputPercent, h, jsDiv, jsStringOfNum]
  · simp [handleMemoryAdd, h, jsAdd_nan_right]
  · simp [handleMemorySubtract, h, jsSub_nan_right]
  · intro hsv
    simp [performOperation, hsv, h]
  · intro sv o hsv ho hne
    unfold performOperation
    rw [hsv, ho]
    simp only [if_neg hne, h, applyOp_nan_right]
    rfl

theorem unparseable_display_propagates_nan_witness :
    (toggleSign { initialState with display := "NaN" }).display = "NaN" :=
  (unparseable_display_propagates_nan { initialState with display := "NaN" } "+" (by decide)).1

/-- C10: for every state, the memory commands touch only the memory
register: `memoryAdd`, `memorySubtract` and `memoryClear` leave display,
accumulator, pending operator, fresh-operand flag and history unchanged; in
particular they do not set the fresh-operand flag, so a digit pressed right
after `memoryAdd` (with the flag clear and a non-`"0"` display, the
conditions under which `inputDigit` appends) appends to the current display
instead of starting a new operand; only `memoryRecall` sets the flag. -/
theorem memory_cmds_touch_only_memory (s : CalcState) (d : Fin 10) :
    (handleMemoryAdd s).display = s.display
      ∧ (handleMemoryAdd s).storedValue = s.storedValue
      ∧ (handleMemoryAdd s).operator = s.operator
      ∧ (handleMemoryAdd s).waitingForOperand = s.waitingForOperand
      ∧ (handleMemoryAdd s).history = s.history
      ∧ (handleMemorySubtract s).display = s.display
      ∧ (handleMemorySubtract s).storedValue = s.storedValue
      ∧ (handleMemorySubtract s).operator = s.operator
      ∧ (handleMemorySubtract s).waitingForOperand = s.waitingForOperand
      ∧ (handleMemorySubtract s).history = s.history
      ∧ (handleMemoryClear s).display = s.display
      ∧ (handleMemoryClear s).storedValue = s.storedValue
      ∧ (handleMemoryClear s).operator = s.operator
      ∧ (handleMemoryClear s).waitingForOperand = s.waitingForOperand
      ∧ (handleMemoryClear s).history = s.history
      ∧ (handleMemoryRecall s).waitingForOperand = true
      ∧ (s.waitingForOperand = false → s.display ≠ "0" →
          (inputDigit (digitStr d) (handleMemoryAdd s)).display = s.display ++ digitStr d) := by
  refine ⟨rfl, rfl, rfl, rfl, rfl, rfl, rfl, rfl, rfl, rfl, rfl, rfl, rfl, rfl, rfl, rfl, ?_⟩
  intro h1 h2
  have hbeq : (s.display == "0") = false := beq_eq_false_iff_ne.mpr h2
  simp [inputDigit, handleMemoryAdd, h1, hbeq]

theorem memory_cmds_touch_only_memory_witness :
    (handleMemoryAdd initialState).display = initialState.display
      ∧ (inputDigit (digitStr 3)
          (handleMemoryAdd { initialState with display := "7" })).display = "7" ++ digitStr 3 :=
  ⟨(memory_cmds_touch_only_memory initialState 3).1,
   (memory_cmds_touch_only_memory { initialState with display := "7" }
      3).2.2.2.2.2.2.2.2.2.2.2.2.2.2.2.2 rfl (by decide)⟩

theorem digitChar_toNat (n : Nat) (h : n < 10) : (digitChar n).toNat = 48 + n := by
  unfold digitChar
  interval_cases n <;> decide

theorem isDigitChar_digitChar (n : Nat) (h : n < 10) : isDigitChar (digitChar n) = true := by
  unfold isDigitChar digitChar
  interval_cases n <;> decide

theorem natToDigits_all_digits (fuel : Nat) :
    ∀ n, ∀ c ∈ natToDigits fuel n, isDigitChar c = true := by
  induction fuel with
  | zero => intro n c hc; simp [natToDigits] at hc
  | succ f ih =>
    intro n c hc
    unfold natToDigits at hc
    by_cases h : n < 10
    · rw [if_pos h] at hc
      simp only [List.mem_singleton] at hc
      subst hc
      exact isDigitChar_digitChar n h
    · rw [if_neg h] at hc
      rcases List.mem_append.mp hc with h1 | h2
      · exact ih _ c h1
      · simp only [List.mem_singleton] at h2
        subst h2
        exact isDigitChar_digitChar _ (Nat.mod_lt n (by norm_num))

theorem ne_dot_of_digit {c : Char} (h : isDigitChar c = true) : c ≠ '.' := by
  intro he
  rw [he] at h
  exact absurd h (by decide)

theorem dot_not_mem_natToDigits (fuel n : Nat) : '.' ∉ natToDigits fuel n := fun hm =>
  absurd (natToDigits_all_digits fuel n '.' hm) (by decide)

theorem dot_not_mem_fracChars (k m : Nat) : '.' ∉ fracChars k m := by
  intro hm
  rcases List.mem_append.mp hm with h1 | h2
  · exact absurd (List.eq_of_mem_replicate h1) (by decide)
  · exact dot_not_mem_natToDigits _ _ h2

theorem ratPosChars_core_count (k m : Nat) :
    (if k = 0 then natToDigits (m + 1) m
      else natToDigits (m / 10 ^ k + 1) (m / 10 ^ k)
        ++ '.' :: fracChars k (m % 10 ^ k)).count '.' ≤ 1 := by
  split
  · rw [List.count_eq_zero.mpr (dot_not_mem_natToDigits _ _)]
    norm_num
  · rw [List.count_append, List.count_cons,
      List.count_eq_zero.mpr (dot_not_mem_natToDigits _ _),
      List.count_eq_zero.mpr (dot_not_mem_fracChars _ _)]
    simp

theorem ratPosToChars_count (q : ℚ) : (ratPosToChars q).count '.' ≤ 1 :=
  ratPosChars_core_count ((decExp q.den).getD 20)
    (q.num.toNat * 10 ^ ((decExp q.den).getD 20) / q.den)

theorem jsStringOfNum_dotCount (v : JSNum) : dotCount (jsStringOfNum v) ≤ 1 := by
  cases v with
  | nan => decide
  | posInf => decide
  | negInf => decide
  | finite q =>
    show dotCount (if q < 0 then (⟨'-' :: ratPosToChars (-q)⟩ : String) else ⟨ratPosToChars q⟩) ≤ 1
    split
    · show ('-' :: ratPosToChars (-q)).count '.' ≤ 1
      rw [List.count_cons]
      have h2 := ratPosToChars_count (-q)
      simp [show (('-' : Char) == '.') = false from by decide]
      omega
    · exact ratPosToChars_count q

theorem digitStr_dotCount (d : Fin 10) : dotCount (digitStr d) = 0 := by
  show [digitChar d.val].count '.' = 0
  rw [List.count_eq_zero]
  intro hm
  simp only [List.mem_singleton] at hm
  exact ne_dot_of_digit (isDigitChar_digitChar d.val d.isLt) hm.symm

theorem dotCount_append (s t : String) : dotCount (s ++ t) = dotCount s + dotCount t := by
  show (s.data ++ t.data).count '.' = _
  exact List.count_append '.' s.data t.data

/-- The display after `performOperation` is either unchanged or the
rendering of some number. -/
theorem performOperation_display_cases (s : CalcState) (op : String) :
    (performOperation op s).display = s.display
      ∨ ∃ v, (performOperation op s).display = jsStringOfNum v := by
  unfold performOperation
  cases hsv : s.storedValue with
  | none => exact Or.inl rfl
  | some sv =>
    cases hop : s.operator with
    | none => exact Or.inl rfl
    | some o =>
      by_cases ho : o = ""
      · subst ho
        exact Or.inl rfl
      · right
        refine ⟨applyOp o (if jsTruthy sv then sv else JSNum.finite 0) (parseFloat s.display), ?_⟩
        simp [ho]

theorem runCmd_dot_le (s : CalcState) (c : Cmd) (h : dotCount s.display ≤ 1) :
    dotCount (runCmd s c).display ≤ 1 := by
  cases c with
  | digit d =>
    show dotCount (inputDigit (digitStr d) s).display ≤ 1
    unfold inputDigit
    split
    · show dotCount (digitStr d) ≤ 1
      rw [digitStr_dotCount d]
      norm_num
    · show dotCount (if s.display == "0" then digitStr d else s.display ++ digitStr d) ≤ 1
      split
      · rw [digitStr_dotCount d]
        norm_num
      · rw [dotCount_append, digitStr_dotCount d]
        omega
  | dot =>
    show dotCount (inputDot s).display ≤ 1
    unfold inputDot
    split
    · exact (show dotCount "0." ≤ 1 by decide)
    · split
      · next hni =>
        show dotCount (s.display ++ ".") ≤ 1
        rw [dotCount_append]
        have hz : dotCount s.display = 0 := by
          rw [show dotCount s.display = s.display.data.count '.' from rfl,
            List.count_eq_zero]
          intro hm
          rw [Bool.not_eq_true'] at hni
          rw [jsIncludes] at hni
          simp at hni
          exact hni hm
        rw [hz]
        decide
      · exact h
  | op o =>
    show dotCount (performOperation o s).display ≤ 1
    rcases performOperation_display_cases s o with hd | ⟨v, hd⟩
    · rw [hd]; exact h
    · rw [hd]; exact jsStringOfNum_dotCount v
  | clearA => exact (show dotCount "0" ≤ 1 by decide)
  | clearD => exact (show dotCount "0" ≤ 1 by decide)
  | sign =>
    show dotCount (toggleSign s).display ≤ 1
    exact jsStringOfNum_dotCount _
  | percent =>
    show dotCount (inputPercent s).display ≤ 1
    exact jsStringOfNum_dotCount _
  | mAdd => exact h
  | mSub => exact h
  | mRecall =>
    show dotCount (handleMemoryRecall s).display ≤ 1
    exact jsStringOfNum_dotCount _
  | mClear => exact h

/-- C7: for every sequence of engine commands starting from the initial
state the display never contains more than one `.` character; in
particular `inputDot` is a no-op when the display already contains a `.`
and the fresh-operand flag is clear. -/
theorem display_at_most_one_dot (cmds : List Cmd) (s : CalcState)
    (h1 : s.waitingForOperand = false) (h2 : jsIncludes s.display '.' = true) :
    dotCount (runCmds cmds initialState).display ≤ 1 ∧ inputDot s = s := by
  constructor
  · have hrun : ∀ cs : List Cmd, ∀ t : CalcState, dotCount t.display ≤ 1 →
        dotCount (runCmds cs t).display ≤ 1 := by
      intro cs
      induction cs with
      | nil => intro t ht; exact ht
      | cons c cs ih => intro t ht; exact ih (runCmd t c) (runCmd_dot_le t c ht)
    exact hrun cmds initialState (by decide)
  · simp [inputDot, h1, h2]

theorem display_at_most_one_dot_witness :
    dotCount (runCmds [] initialState).display ≤ 1
      ∧ inputDot { initialState with display := "0." } = { initialState with display := "0." } :=
  display_at_most_one_dot [] { initialState with display := "0." } rfl (by decide)

theorem digitsVal_snoc (xs : List Char) (c : Char) :
    digitsVal (xs ++ [c]) = 10 * digitsVal xs + (c.toNat - 48) := by
  unfold digitsVal
  rw [List.foldl_append]
  rfl

theorem digitsVal_natToDigits : ∀ fuel n, n < fuel → digitsVal (natToDigits fuel n) = n := by
  intro fuel
  induction fuel with
  | zero => intro n hn; exact absurd hn (Nat.not_lt_zero n)
  | succ f ih =>
    intro n hn
    unfold natToDigits
    by_cases h : n < 10
    · rw [if_pos h]
      show 10 * 0 + ((digitChar n).toNat - 48) = n
      rw [digitChar_toNat n h]
      omega
    · rw [if_neg h]
      rw [digitsVal_snoc]
      have hdiv : n / 10 < n := Nat.div_lt_self (by omega) (by norm_num)
      rw [ih (n / 10) (by omega)]
      rw [digitChar_toNat (n % 10) (Nat.mod_lt n (by norm_num))]
      omega

theorem natToDigits_ne_nil (fuel n : Nat) (h : fuel ≠ 0) : natToDigits fuel n ≠ [] := by
  cases fuel with
  | zero => exact absurd rfl h
  | succ f =>
    unfold natToDigits
    split
    · simp
    · simp

theorem natToDigits_length_le :
    ∀ fuel n L, n < fuel → 1 ≤ L → n < 10 ^ L → (natToDigits fuel n).length ≤ L := by
  intro fuel
  induction fuel with
  | zero => intro n L hn; exact absurd hn (Nat.not_lt_zero n)
  | succ f ih =>
    intro n L hn hL hpow
    unfold natToDigits
    by_cases h : n < 10
    · rw [if_pos h]
      simpa using hL
    · rw [if_neg h]
      cases L with
      | zero => exact absurd hL (by norm_num)
      | succ L' =>
        have hL' : 1 ≤ L' := by
          by_contra hc
          have : L' = 0 := by omega
          subst this
          simp at hpow
          omega
        have hdiv : n / 10 < n := Nat.div_lt_self (by omega) (by norm_num)
        have hdivpow : n / 10 < 10 ^ L' := by
          rw [Nat.div_lt_iff_lt_mul (by norm_num)]
          calc n < 10 ^ (L' + 1) := hpow
            _ = 10 ^ L' * 10 := by ring
        have := ih (n / 10) L' (by omega) hL' hdivpow
        simp only [List.length_append, List.length_singleton]
        omega

theorem digitsVal_replicate_zero (z : Nat) (ds : List Char) :
    digitsVal (List.replicate z '0' ++ ds) = digitsVal ds := by
  induction z with
  | zero => rfl
  | succ z ih =>
    rw [List.replicate_succ, List.cons_append]
    show List.foldl (fun a c => 10 * a + (c.toNat - 48))
      (10 * 0 + (('0' : Char).toNat - 48)) (List.replicate z '0' ++ ds) = digitsVal ds
    rw [show (10 * 0 + (('0' : Char).toNat - 48)) = 0 from by decide]
    exact ih

theorem fracChars_val (k m : Nat) : digitsVal (fracChars k m) = m := by
  rw [fracChars, digitsVal_replicate_zero, digitsVal_natToDigits _ _ (Nat.lt_succ_self m)]

theorem fracChars_length (k m : Nat) (h1 : 1 ≤ k) (h2 : m < 10 ^ k) :
    (fracChars k m).length = k := by
  rw [fracChars]
  rw [List.length_append, List.length_replicate]
  have := natToDigits_length_le (m + 1) m k (Nat.lt_succ_self m) h1 h2
  omega

theorem fracChars_all_digits (k m : Nat) : ∀ c ∈ fracChars k m, isDigitChar c = true := by
  intro c hc
  rcases List.mem_append.mp hc with h1 | h2
  · rw [List.eq_of_mem_replicate h1]
    decide
  · exact natToDigits_all_digits _ _ c h2

theorem spanDigits_append (ds rest : List Char)
    (hds : ∀ c ∈ ds, isDigitChar c = true)
    (hrest : ∀ c t, rest = c :: t → isDigitChar c = false) :
    spanDigits (ds ++ rest) = (ds, rest) := by
  induction ds with
  | nil =>
    rw [List.nil_append]
    cases rest with
    | nil => rfl
    | cons c t =>
      unfold spanDigits
      rw [if_neg (by rw [hrest c t rfl]; exact Bool.false_ne_true)]
  | cons d ds' ih =>
    rw [List.cons_append]
    unfold spanDigits
    rw [if_pos (hds d (List.mem_cons_self d ds'))]
    have := ih (fun c hc => hds c (List.mem_cons_of_mem d hc))
    rw [this]

theorem spanDigits_all (ds : List Char) (hds : ∀ c ∈ ds, isDigitChar c = true) :
    spanDigits ds = (ds, []) := by
  have := spanDigits_append ds [] hds (fun c t h => absurd h (by simp))
  rwa [List.append_nil] at this

theorem take8_ne_inf (c : Char) (t : List Char) (hd : isDigitChar c = true) :
    (c :: t).take 8 ≠ infChars := by
  intro habs
  rw [List.take_succ_cons] at habs
  have hc : c = 'I' := (List.cons.injEq _ _ _ _).mp habs |>.1
  rw [hc] at hd
  exact absurd hd (by decide)

theorem decExp_dvd (d k : Nat) (h : decExp d = some k) : d ∣ 10 ^ k := by
  have hp := List.find?_some h
  simp only [beq_iff_eq] at hp
  exact Nat.dvd_of_mod_eq_zero hp

theorem dvd_ten_pow_self {d k : Nat} (hd : 0 < d) (h : d ∣ 10 ^ k) : d ∣ 10 ^ d := by
  have hd0 : d ≠ 0 := hd.ne'
  rw [← Nat.factorization_le_iff_dvd hd0 (by positivity)]
  have hle : d.factorization ≤ (10 ^ k).factorization := by
    rw [Nat.factorization_le_iff_dvd hd0 (by positivity)]
    exact h
  rw [Finsupp.le_def] at hle ⊢
  intro p
  have hlep := hle p
  rw [Nat.factorization_pow] at hlep ⊢
  simp only [Finsupp.smul_apply, smul_eq_mul] at hlep ⊢
  by_cases hp : p.Prime
  · by_cases h10 : Nat.factorization 10 p = 0
    · rw [h10] at hlep ⊢
      omega
    · have h1 : 1 ≤ Nat.factorization 10 p := Nat.one_le_iff_ne_zero.mpr h10
      have h2 : d.factorization p ≤ d := by
        have hdvd2 : p ^ d.factorization p ∣ d := Nat.ordProj_dvd d p
        have hle2 : p ^ d.factorization p ≤ d := Nat.le_of_dvd hd hdvd2
        have h3 : d.factorization p < p ^ d.factorization p :=
          Nat.lt_pow_self hp.one_lt _
        omega
      calc d.factorization p ≤ d := h2
        _ ≤ d * Nat.factorization 10 p := Nat.le_mul_of_pos_right d h1
  · rw [Nat.factorization_eq_zero_of_non_prime d hp]
    exact Nat.zero_le _

theorem decExp_isSome (d : Nat) (hd : 0 < d) (h : ∃ n, d ∣ 10 ^ n) :
    ∃ k, decExp d = some k := by
  obtain ⟨n, hn⟩ := h
  cases hfind : decExp d with
  | some k => exact ⟨k, rfl⟩
  | none =>
    exfalso
    rw [decExp, List.find?_eq_none] at hfind
    have hmem : d ∈ List.range (d + 1) := List.mem_range.mpr (Nat.lt_succ_self d)
    have := hfind d hmem
    simp only [beq_iff_eq] at this
    exact this (Nat.mod_eq_zero_of_dvd (dvd_ten_pow_self hd hn))

theorem divInt_den_dvd (p : Int) (x : Nat) : (Rat.divInt p (x : Int)).den ∣ x :=
  Int.natCast_dvd_natCast.mp (Rat.den_dvd p x)

theorem parseVal_e0 (a b l : Nat) :
    parseVal a b l 0 = Rat.divInt ((a * 10 ^ l + b : Nat) : Int) ((10 ^ l : Nat) : Int) := by
  unfold parseVal
  rw [if_neg (by norm_num)]
  norm_num

theorem divInt_pow_eq (q : ℚ) (hq : 0 ≤ q) (k : Nat) (hdvd : q.den ∣ 10 ^ k) :
    Rat.divInt ((q.num.toNat * 10 ^ k / q.den : Nat) : Int) ((10 ^ k : Nat) : Int) = q := by
  have hden : 0 < q.den := q.pos
  obtain ⟨t, ht⟩ : ∃ t, q.den * t = 10 ^ k := ⟨10 ^ k / q.den, Nat.mul_div_cancel' hdvd⟩
  have hm : q.num.toNat * 10 ^ k / q.den = q.num.toNat * t := by
    rw [← ht, show q.num.toNat * (q.den * t) = q.den * (q.num.toNat * t) from by ring,
      Nat.mul_div_cancel_left _ hden]
  rw [hm, Rat.divInt_eq_div, ← ht]
  have htpos : 0 < t := by
    rcases Nat.eq_zero_or_pos t with h0 | h0
    · rw [h0, mul_zero] at ht
      have hp : (0 : ℕ) < 10 ^ k := by positivity
      omega
    · exact h0
  have htne : ((t : Nat) : ℚ) ≠ 0 := by exact_mod_cast htpos.ne'
  have hnum : ((q.num.toNat : Nat) : ℚ) = (q.num : ℚ) := by
    exact_mod_cast Int.toNat_of_nonneg (Rat.num_nonneg.mpr hq)
  push_cast
  rw [mul_div_mul_right _ _ htne, hnum]
  exact Rat.num_div_den q

theorem ratPosToChars_eq (q : ℚ) {k : Nat} (hk : decExp q.den = some k) :
    ratPosToChars q =
      if k = 0 then
        natToDigits (q.num.toNat * 10 ^ k / q.den + 1) (q.num.toNat * 10 ^ k / q.den)
      else
        natToDigits (q.num.toNat * 10 ^ k / q.den / 10 ^ k + 1)
            (q.num.toNat * 10 ^ k / q.den / 10 ^ k)
          ++ '.' :: fracChars k (q.num.toNat * 10 ^ k / q.den % 10 ^ k) := by
  unfold ratPosToChars
  rw [hk]
  rfl

theorem parseAfterSign_digits (ds : List Char) (hne : ds ≠ [])
    (hds : ∀ c ∈ ds, isDigitChar c = true) :
    parseAfterSign ds = some (JSNum.finite (parseVal (digitsVal ds) 0 0 0)) := by
  obtain ⟨c, t, rfl⟩ := List.exists_cons_of_ne_nil hne
  unfold parseAfterSign
  rw [if_neg (take8_ne_inf c t (hds c (List.mem_cons_self c t)))]
  rw [spanDigits_all (c :: t) hds]
  rfl

theorem parseAfterSign_digits_dot (ds fs : List Char) (hne : ds ≠ [])
    (hds : ∀ c ∈ ds, isDigitChar c = true) (hfs : ∀ c ∈ fs, isDigitChar c = true) :
    parseAfterSign (ds ++ '.' :: fs)
      = some (JSNum.finite (parseVal (digitsVal ds) (digitsVal fs) fs.length 0)) := by
  obtain ⟨c, t, rfl⟩ := List.exists_cons_of_ne_nil hne
  have hsp : spanDigits ((c :: t) ++ '.' :: fs) = (c :: t, '.' :: fs) :=
    spanDigits_append (c :: t) ('.' :: fs) hds (fun c' t' h => by
      injection h with h1 h2
      rw [← h1]
      decide)
  rw [List.cons_append]
  unfold parseAfterSign
  rw [if_neg (take8_ne_inf c _ (hds c (List.mem_cons_self c t)))]
  rw [← List.cons_append, hsp]
  show parseTail (c :: t, '.' :: fs) (spanDigits fs) = _
  rw [spanDigits_all fs hfs]
  rfl

theorem parseAfterSign_ratPos (q : ℚ) (hq : 0 ≤ q) {k : Nat} (hk : decExp q.den = some k) :
    parseAfterSign (ratPosToChars q) = some (JSNum.finite q) := by
  have hdvd : q.den ∣ 10 ^ k := decExp_dvd _ _ hk
  rw [ratPosToChars_eq q hk]
  by_cases hk0 : k = 0
  · subst hk0
    rw [if_pos rfl]
    rw [parseAfterSign_digits _ (natToDigits_ne_nil _ _ (Nat.succ_ne_zero _))
      (natToDigits_all_digits _ _)]
    simp only [Option.some.injEq, JSNum.finite.injEq]
    rw [parseVal_e0]
    rw [digitsVal_natToDigits _ _ (Nat.lt_succ_self _)]
    rw [show (q.num.toNat * 10 ^ 0 / q.den * 10 ^ 0 + 0 : Nat)
        = q.num.toNat * 10 ^ 0 / q.den from by simp]
    exact divInt_pow_eq q hq 0 hdvd
  · rw [if_neg hk0]
    have hk1 : 1 ≤ k := Nat.one_le_iff_ne_zero.mpr hk0
    have hmod : q.num.toNat * 10 ^ k / q.den % 10 ^ k < 10 ^ k :=
      Nat.mod_lt _ (by positivity)
    rw [parseAfterSign_digits_dot _ _ (natToDigits_ne_nil _ _ (Nat.succ_ne_zero _))
      (natToDigits_all_digits _ _) (fracChars_all_digits _ _)]
    simp only [Option.some.injEq, JSNum.finite.injEq]
    rw [parseVal_e0, digitsVal_natToDigits _ _ (Nat.lt_succ_self _), fracChars_val,
      fracChars_length _ _ hk1 hmod]
    rw [show (q.num.toNat * 10 ^ k / q.den / 10 ^ k * 10 ^ k
          + q.num.toNat * 10 ^ k / q.den % 10 ^ k : Nat)
        = q.num.toNat * 10 ^ k / q.den from by
      rw [mul_comm]
      exact Nat.div_add_mod _ _]
    exact divInt_pow_eq q hq k hdvd

theorem ratPosToChars_head (q : ℚ) :
    ∃ c t, ratPosToChars q = c :: t ∧ isDigitChar c = true := by
  have h : ∀ (k m : Nat), ∃ c t,
      (if k = 0 then natToDigits (m + 1) m
        else natToDigits (m / 10 ^ k + 1) (m / 10 ^ k) ++ '.' :: fracChars k (m % 10 ^ k))
        = c :: t ∧ isDigitChar c = true := by
    intro k m
    split
    · obtain ⟨c, t, hct⟩ :=
        List.exists_cons_of_ne_nil (natToDigits_ne_nil (m + 1) m (Nat.succ_ne_zero _))
      refine ⟨c, t, hct, natToDigits_all_digits (m + 1) m c ?_⟩
      rw [hct]
      exact List.mem_cons_self c t
    · obtain ⟨c, t, hct⟩ :=
        List.exists_cons_of_ne_nil (natToDigits_ne_nil (m / 10 ^ k + 1) _ (Nat.succ_ne_zero _))
      refine ⟨c, t ++ '.' :: fracChars k (m % 10 ^ k), ?_,
        natToDigits_all_digits (m / 10 ^ k + 1) (m / 10 ^ k) c ?_⟩
      · rw [hct, List.cons_append]
      · rw [hct]
        exact List.mem_cons_self c t
  exact h ((decExp q.den).getD 20) (q.num.toNat * 10 ^ ((decExp q.den).getD 20) / q.den)

theorem parse_jsString (w : JSNum) (hw : Terminates w) :
    parseFloat (jsStringOfNum w) = w := by
  cases w with
  | nan => decide
  | posInf => decide
  | negInf => decide
  | finite q =>
    obtain ⟨n, hn⟩ := hw
    obtain ⟨k, hk⟩ := decExp_isSome q.den q.pos ⟨n, hn⟩
    by_cases hq : q < 0
    · have hq' : 0 ≤ -q := neg_nonneg.mpr (le_of_lt hq)
      have hk' : decExp (-q).den = some k := by rw [Rat.neg_den]; exact hk
      have hps := parseAfterSign_ratPos (-q) hq' hk'
      show parseFloat
          (if q < 0 then (⟨'-' :: ratPosToChars (-q)⟩ : String) else ⟨ratPosToChars q⟩)
        = JSNum.finite q
      rw [if_pos hq]
      show (match parseAfterSign (ratPosToChars (-q)) with
            | some v => jsNeg v
            | none => JSNum.nan) = JSNum.finite q
      rw [hps]
      show JSNum.finite (- - q) = JSNum.finite q
      rw [neg_neg]
    · have hq' : 0 ≤ q := le_of_not_lt hq
      have hps := parseAfterSign_ratPos q hq' hk
      obtain ⟨c, t, hct, hcd⟩ := ratPosToChars_head q
      show parseFloat
          (if q < 0 then (⟨'-' :: ratPosToChars (-q)⟩ : String) else ⟨ratPosToChars q⟩)
        = JSNum.finite q
      rw [if_neg hq, hct]
      rw [hct] at hps
      unfold parseFloat
      split
      · next rest heq =>
        exfalso
        have h2 : c :: t = '-' :: rest := heq
        have hc : c = '-' := ((List.cons.injEq _ _ _ _).mp h2).1
        rw [hc] at hcd
        exact absurd hcd (by decide)
      · next rest heq =>
        exfalso
        have h2 : c :: t = '+' :: rest := heq
        have hc : c = '+' := ((List.cons.injEq _ _ _ _).mp h2).1
        rw [hc] at hcd
        exact absurd hcd (by decide)
      · rw [hps]

theorem parseVal_den_dvd (a b l : Nat) (e : Int) : ∃ n, (parseVal a b l e).den ∣ 10 ^ n := by
  unfold parseVal
  split
  · refine ⟨l + (-e).toNat, ?_⟩
    rw [pow_add]
    exact divInt_den_dvd _ _
  · exact ⟨l, divInt_den_dvd _ _⟩

theorem parseAfterSign_term (cs : List Char) (v : JSNum)
    (h : parseAfterSign cs = some v) : Terminates v := by
  unfold parseAfterSign at h
  split at h
  · cases h
    trivial
  · unfold parseTail at h
    split at h
    · exact absurd h (by simp)
    · cases h
      exact parseVal_den_dvd _ _ _ _

theorem jsNeg_term (v : JSNum) (h : Terminates v) : Terminates (jsNeg v) := by
  cases v with
  | finite q =>
    obtain ⟨n, hn⟩ := h
    exact ⟨n, by rw [Rat.neg_den]; exact hn⟩
  | nan => trivial
  | posInf => trivial
  | negInf => trivial

theorem parseFloat_term (s : String) : Terminates (parseFloat s) := by
  unfold parseFloat
  split
  · split
    · next v hv => exact jsNeg_term v (parseAfterSign_term _ v hv)
    · trivial
  · split
    · next v hv => exact parseAfterSign_term _ v hv
    · trivial
  · split
    · next v hv => exact parseAfterSign_term _ v hv
    · trivial

theorem jsNeg_jsNeg (v : JSNum) : jsNeg (jsNeg v) = v := by
  cases v with
  | finite q =>
    show JSNum.finite (- - q) = _
    rw [neg_neg]
  | nan => rfl
  | posInf => rfl
  | negInf => rfl

/-- C8: `toggleSign` is numerically its own inverse: for every state whose
display parses to a number, applying it twice yields a display whose numeric
value equals the original display's numeric value; and on display `"0"` a
single application leaves the display `"0"` (negating zero re-renders as
`"0"`, matching `String(-0)`). -/
theorem toggleSign_self_inverse (s : CalcState) (h : parseFloat s.display ≠ JSNum.nan) :
    parseFloat ((toggleSign (toggleSign s)).display) = parseFloat s.display
      ∧ (s.display = "0" → (toggleSign s).display = "0") := by
  constructor
  · have hterm : Terminates (parseFloat s.display) := parseFloat_term s.display
    have hterm2 : Terminates (jsNeg (parseFloat s.display)) := jsNeg_term _ hterm
    show parseFloat (jsStringOfNum (jsNeg (parseFloat
        (jsStringOfNum (jsNeg (parseFloat s.display)))))) = parseFloat s.display
    rw [parse_jsString _ hterm2, jsNeg_jsNeg, parse_jsString _ hterm]
  · intro h0
    show jsStringOfNum (jsNeg (parseFloat s.display)) = "0"
    rw [h0]
    decide

theorem toggleSign_self_inverse_witness :
    parseFloat ((toggleSign (toggleSign { initialState with display := "5" })).display)
        = parseFloat "5"
      ∧ (({ initialState with display := "5" } : CalcState).display = "0" →
          (toggleSign { initialState with display := "5" }).display = "0") :=
  toggleSign_self_inverse { initialState with display := "5" } (by decide)
